import Mathlib

/-!
Verification development for the sclassifier image preprocessing pipeline
(src/sclassifier/preprocessing.py).

Shallow embedding conventions:
* A pixel is an exact rational or a non-finite marker. The marker `Px.nan`
  stands for any non-finite IEEE value (NaN or infinity); the claims settled
  here only distinguish finite values from non-finite ones, and every
  comparison `v < c`, `v > c`, `v <= c` on a non-finite NaN value is false in
  numpy, which the embedding mirrors.
* An image tensor of shape (H, W, C) is stored channel-major:
  `Img = List Chan`, one `Chan = List (List Px)` per channel, rows then
  columns.  `data[:,:,i]` of the source is channel `i` of the list.
* A stage call yields `Res Img`: `Res.ok` is a returned tensor, `Res.fail`
  models the Python `return None` failure value, and `Res.exn` models an
  uncaught Python exception escaping the call.
* External library primitives that the stages call (astropy sigma_clip
  bounds, astropy ZScaleInterval, np.log10, cv2.erode, the resize backend,
  the imgaug augmentation backend) are not part of this repository; each is
  taken as an explicit function parameter of the stage embedding, so every
  theorem quantifies over their behaviour.
-/

unseal Rat.add Rat.sub Rat.mul Rat.inv

/-- A pixel value: a finite rational, or a non-finite marker (NaN or Inf). -/
inductive Px where
  | fin (q : ℚ)
  | nan
deriving DecidableEq, Repr

/-- A channel: rows of pixels. -/
abbrev Chan := List (List Px)

/-- An image tensor, stored channel-major (shape (H, W, C), C = list length). -/
abbrev Img := List Chan

/-- np.isfinite. -/
def Px.isfinite : Px → Bool
  | .fin _ => true
  | .nan => false

/-- The shared validity mask of the source: cond = (data != 0) & np.isfinite(data).
Note numpy evaluates (nan != 0) as True, but isfinite(nan) is False, so a
non-finite pixel is invalid, and a finite pixel is valid iff nonzero. -/
def Px.isValid : Px → Bool
  | .fin q => decide (q ≠ 0)
  | .nan => false

/-- Pixel addition (non-finite values propagate, as in IEEE). -/
def Px.add : Px → Px → Px
  | .fin a, .fin b => .fin (a + b)
  | _, _ => .nan

/-- Pixel subtraction. -/
def Px.sub : Px → Px → Px
  | .fin a, .fin b => .fin (a - b)
  | _, _ => .nan

/-- Pixel multiplication. -/
def Px.mul : Px → Px → Px
  | .fin a, .fin b => .fin (a * b)
  | _, _ => .nan

/-- Pixel division; division by zero yields a non-finite value, as in numpy
(inf or nan, both represented by the non-finite marker). -/
def Px.div : Px → Px → Px
  | .fin a, .fin b => if b = 0 then .nan else .fin (a / b)
  | _, _ => .nan

/-- The numpy elementwise comparison v < c; false on a non-finite NaN value. -/
def Px.ltB : Px → ℚ → Bool
  | .fin a, c => Rat.blt a c
  | .nan, _ => false

/-- The numpy elementwise comparison v > c; false on a non-finite NaN value. -/
def Px.gtB : Px → ℚ → Bool
  | .fin a, c => Rat.blt c a
  | .nan, _ => false

/-- The numpy elementwise comparison v <= c; false on a non-finite NaN value. -/
def Px.leB : Px → ℚ → Bool
  | .fin a, c => !Rat.blt c a
  | .nan, _ => false

/-- Extract a valid pixel value, if any (used for the 1-d valid samples). -/
def Px.val? : Px → Option ℚ
  | .fin q => if q = 0 then none else some q
  | .nan => none

/-- The 1-d array of valid pixel values of a channel:
data_ch[np.logical_and(data_ch != 0, np.isfinite(data_ch))]. -/
def validVals (ch : Chan) : List ℚ :=
  ch.flatten.filterMap Px.val?

/-- The 1-d array of strictly positive finite pixel values of a channel:
data_ch[np.logical_and(data_ch > 0, np.isfinite(data_ch))]. -/
def posVals (ch : Chan) : List ℚ :=
  ch.flatten.filterMap (fun p =>
    match p with
    | .fin q => if 0 < q then some q else none
    | .nan => none)

/-- Minimum of two rationals, via the kernel-computable core comparison. -/
def qmin (a b : ℚ) : ℚ := if Rat.blt b a then b else a

/-- Maximum of two rationals, via the kernel-computable core comparison. -/
def qmax (a b : ℚ) : ℚ := if Rat.blt a b then b else a

/-- np.min of a 1-d array; none models the ValueError raised on an empty array. -/
def minL : List ℚ → Option ℚ
  | [] => none
  | q :: qs => some (qs.foldl qmin q)

/-- np.max of a 1-d array; none models the ValueError raised on an empty array. -/
def maxL : List ℚ → Option ℚ
  | [] => none
  | q :: qs => some (qs.foldl qmax q)

/-- Map a function over every pixel of a channel. -/
def chMap (f : Px → Px) (ch : Chan) : Chan :=
  ch.map (fun row => row.map f)

/-- Map a function over every pixel of an image. -/
def imgMap (f : Px → Px) (img : Img) : Img :=
  img.map (chMap f)

/-- Pointwise combination of two channels (numpy arrays of one shape). -/
def zipWith2D (f : Px → Px → Px) (c1 c2 : Chan) : Chan :=
  List.zipWith (fun r1 r2 => List.zipWith f r1 r2) c1 c2

/-- The mask-restoration assignment of the source, new[~cond] = 0, where cond
is the validity mask of the original channel: positions whose original pixel
is invalid are forced to exactly 0. -/
def restoreChan (orig nw : Chan) : Chan :=
  zipWith2D (fun po pn => if po.isValid then pn else Px.fin 0) orig nw

/-- Mask restoration applied to a whole image against the original tensor. -/
def restoreImg (orig nw : Img) : Img :=
  List.zipWith restoreChan orig nw

/-- The pixel of an image at (channel, row, column), if within bounds. -/
def pxAt (img : Img) (i r c : ℕ) : Option Px :=
  img[i]?.bind (fun ch => ch[r]?.bind (fun row => row[c]?))

/-- The outcome of a stage call: a returned tensor, the Python failure value
None, or an uncaught Python exception. -/
inductive Res (α : Type) where
  | ok (a : α)
  | fail
  | exn
deriving DecidableEq, Repr

/-- Whether a stage outcome is a returned tensor. -/
def Res.isOk : Res α → Bool
  | .ok _ => true
  | _ => false

/-- Sequencing of fallible computations on stage outcomes. -/
def Res.bind : Res α → (α → Res β) → Res β
  | .ok a, f => f a
  | .fail, _ => .fail
  | .exn, _ => .exn

/-- The per-channel loop pattern of the stages: run an indexed channel
transform over the channel list, propagating the first failure or exception
(the source loops over channels and returns None from inside the loop). -/
def resMapIdxM (f : ℕ → Chan → Res Chan) : ℕ → List Chan → Res (List Chan)
  | _, [] => .ok []
  | n, ch :: rest =>
    match f n ch with
    | .ok b =>
      match resMapIdxM f (n + 1) rest with
      | .ok bs => .ok (b :: bs)
      | .fail => .fail
      | .exn => .exn
    | .fail => .fail
    | .exn => .exn

/-- Indexed map over a list (explicit index accumulator). -/
def mapWithIdx (f : ℕ → α → β) : ℕ → List α → List β
  | _, [] => []
  | n, a :: as => f n a :: mapWithIdx f (n + 1) as

/-- Every stage __call__ starts with: if data is None, return None.  A stage
body is therefore lifted to outcomes: None in, None out; an exception already
raised upstream never reaches the stage. -/
def stageLift (body : Img → Res Img) : Res Img → Res Img
  | .ok d => body d
  | .fail => .fail
  | .exn => .exn

/-- MinMaxNormalizer.__call__: per channel, linearly rescale to
[norm_min, norm_max] using the channel min/max over valid pixels, then
restore invalid pixels to 0; returns None when a channel has no valid pixel. -/
def minMaxNormalizerBody (norm_min norm_max : ℚ) (data : Img) : Res Img :=
  resMapIdxM (fun _ ch =>
    match minL (validVals ch), maxL (validVals ch) with
    | some m, some M =>
      .ok (chMap (fun p =>
        if p.isValid then
          Px.add (Px.mul (Px.div (Px.sub p (Px.fin m)) (Px.fin (M - m)))
            (Px.fin (norm_max - norm_min))) (Px.fin norm_min)
        else Px.fin 0) ch)
    | _, _ => .fail) 0 data

/-- Scaler.__call__: multiply every channel by its factor.  The body performs
no mask restoration: data_scaled = data * scale_factors is returned directly.
(The source constructor also contains the slip
self.scale_factors = self.scale_factors, which raises AttributeError; the
body below embeds the __call__ code given a factor list.) -/
def scalerBody (scale_factors : List ℚ) (data : Img) : Res Img :=
  if scale_factors.length = 0 ∨ scale_factors.length ≠ data.length then .fail
  else .ok (List.zipWith (fun f ch => chMap (fun p => Px.mul p (Px.fin f)) ch)
    scale_factors data)

/-- Standardizer.__call__: (data - means) / sigmas per channel, then restore
invalid pixels to 0; returns None on a length mismatch. -/
def standardizerBody (means sigmas : List ℚ) (data : Img) : Res Img :=
  if means.length = 0 ∨ means.length ≠ data.length then .fail
  else if sigmas.length = 0 ∨ sigmas.length ≠ data.length then .fail
  else .ok (mapWithIdx (fun i ch =>
    chMap (fun p =>
      if p.isValid then
        Px.div (Px.sub p (Px.fin (means.getD i 0))) (Px.fin (sigmas.getD i 0))
      else Px.fin 0) ch) 0 data)

/-- Shifter.__call__: data - offsets per channel, then restore invalid pixels
to 0; returns None on a length mismatch. -/
def shifterBody (offsets : List ℚ) (data : Img) : Res Img :=
  if offsets.length = 0 ∨ offsets.length ≠ data.length then .fail
  else .ok (mapWithIdx (fun i ch =>
    chMap (fun p =>
      if p.isValid then Px.sub p (Px.fin (offsets.getD i 0))
      else Px.fin 0) ch) 0 data)

/-- MinShifter.__call__: subtract the channel minimum of valid pixels and
restore invalid pixels to 0.  On a channel with no valid pixel the source
evaluates data_ch_1d.min() on an empty array, which raises ValueError,
modelled as an exception outcome. -/
def minShifterBody (chid : Int) (data : Img) : Res Img :=
  resMapIdxM (fun i ch =>
    if chid ≠ -1 ∧ (i : Int) ≠ chid then .ok ch
    else
      match minL (validVals ch) with
      | none => .exn
      | some m =>
        .ok (chMap (fun p =>
          if p.isValid then Px.sub p (Px.fin m) else Px.fin 0) ch)) 0 data

/-- SigmaClipper.__call__: per selected channel, obtain the (lower, upper)
clip bounds that astropy sigma_clip returns on the valid 1-d sample (the
astropy computation is external, taken as the function parameter clipStats),
clamp pixel values to the bounds, then restore invalid pixels to 0. -/
def sigmaClipperBody (clipStats : List ℚ → ℚ × ℚ) (chid : Int) (data : Img) :
    Res Img :=
  .ok (mapWithIdx (fun i ch =>
    if chid ≠ -1 ∧ (i : Int) ≠ chid then ch
    else
      let thr := clipStats (validVals ch)
      chMap (fun p =>
        if p.isValid then
          let p1 := if p.ltB thr.1 then Px.fin thr.1 else p
          if p1.gtB thr.2 then Px.fin thr.2 else p1
        else Px.fin 0) ch) 0 data)

/-- ZScaleTransformer.__call__: per channel, apply the astropy ZScaleInterval
stretch (external, taken as the function parameter zs, indexed by the channel
contrast), then restore invalid pixels of the original tensor to 0; returns
None when the contrast list is shorter than the channel count. -/
def zScaleTransformerBody (contrasts : List ℚ) (zs : ℚ → Chan → Chan)
    (data : Img) : Res Img :=
  if contrasts.length < data.length then .fail
  else .ok (mapWithIdx (fun i ch => restoreChan ch (zs (contrasts.getD i 0) ch))
    0 data)

/-- LogStretcher.__call__: per channel (the channel chid is skipped when
chid is not -1): compute base-10 logs of strictly positive finite pixels
(np.log10 is external, taken as the function parameter lg), give every other
pixel (zero, negative or non-finite) the channel minimum log value, and, only
when minmaxnorm is enabled, renormalize to the configured range, optionally
clip negatives to 0, and force pixels that were invalid in the input back to
exactly 0.  Returns None when a channel has no strictly positive valid pixel. -/
def logStretcherBody (lg : ℚ → ℚ) (chid : Int) (minmaxnorm : Bool)
    (data_norm_min data_norm_max : ℚ) (clip_neg : Bool) (data : Img) : Res Img :=
  resMapIdxM (fun i ch =>
    if chid ≠ -1 ∧ (i : Int) = chid then .ok ch
    else
      match minL ((posVals ch).map lg) with
      | none => .fail
      | some lgmin =>
        .ok (chMap (fun p =>
          let base : ℚ :=
            match p with
            | .fin q => if 0 < q then lg q else lgmin
            | .nan => lgmin
          if minmaxnorm then
            if p.isValid then
              let v := Px.div (Px.fin (base - data_norm_min))
                (Px.fin (data_norm_max - data_norm_min))
              if clip_neg ∧ v.ltB 0 then Px.fin 0 else v
            else Px.fin 0
          else Px.fin base) ch)) 0 data

/-- The pixelwise ratio of ChanDivider: dn = data / data_denom where
data_denom is the reference pixel with exact zeros replaced by 1, and
dn[~cond_ref] = 0 forces the ratio to 0 where the reference pixel is invalid. -/
def cdDivPx (pp pr : Px) : Px :=
  let denom := if pr = Px.fin 0 then Px.fin 1 else pr
  if pr.isValid then Px.div pp denom else Px.fin 0

/-- The per-channel loop of ChanDivider: the reference channel is copied, the
others are divided pixelwise by the (zero-replaced) reference channel. -/
def cdRatioed (chref : ℕ) (data_ref : Chan) (data : Img) : Img :=
  mapWithIdx (fun i ch =>
    if i = chref then data_ref else zipWith2D cdDivPx ch data_ref) 0 data

/-- The log step of ChanDivider: data_transf[data_transf <= 0] = 1 followed by
np.log10 (external, function parameter lg; non-finite values propagate). -/
def cdLogPx (lg : ℚ → ℚ) (p : Px) : Px :=
  let p1 := if p.leB 0 then Px.fin 1 else p
  match p1 with
  | .fin q => Px.fin (lg q)
  | .nan => Px.nan

/-- The trim step of ChanDivider: clamp above trim_max, then below trim_min. -/
def cdTrimPx (trim_min trim_max : ℚ) (p : Px) : Px :=
  let p1 := if p.gtB trim_max then Px.fin trim_max else p
  if p1.ltB trim_min then Px.fin trim_min else p1

/-- The final reassignment of the log branch of ChanDivider:
data_transf[:,:,chref] = data_norm[:,:,chref] puts the unlogged reference
channel back into the transformed tensor. -/
def cdPutRef (chref : ℕ) (refOut : Chan) (data : Img) : Img :=
  mapWithIdx (fun i ch => if i = chref then refOut else ch) 0 data

/-- ChanDivider.__call__: divide every non-reference channel pixelwise by the
reference channel (denominator entries that are exactly 0 are first replaced
by 1; the ratio is forced to 0 where the reference pixel is invalid), restore
invalid pixels of the input to 0, optionally log-transform the ratio channels
(entries not above 0 are replaced by 1 before the log; lg is the external
np.log10), restore again, optionally clamp to the trim bounds, and put the
(unlogged) reference channel back.  The final strip branch of the source
executes np.delete(data_norm, chref, axis=2) with the bare name chref, which
is undefined in that scope and raises NameError, modelled as an exception. -/
def chanDividerBody (chref : ℕ) (logtransf strip_ch trim : Bool)
    (trim_min trim_max : ℚ) (lg : ℚ → ℚ) (data : Img) : Res Img :=
  match data[chref]? with
  | none => .exn
  | some data_ref =>
    let data_norm : Img := restoreImg data (cdRatioed chref data_ref data)
    let data_out : Img :=
      if logtransf then
        let lgr : Img := restoreImg data (imgMap (cdLogPx lg) data_norm)
        let lgt : Img :=
          if trim then imgMap (cdTrimPx trim_min trim_max) lgr else lgr
        cdPutRef chref (data_norm.getD chref []) lgt
      else data_norm
    if strip_ch then .exn else .ok data_out

/-- ChanResizer.__call__: returns None when the target channel count is 0 or
above 1000; returns the input unchanged when the count already matches; when
expanding, copies the existing channels and fills every new slot with the
last existing channel; when reducing, keeps the first nchans channels.  On a
0-channel tensor the expansion loop reads data[:,:,-1], which raises
IndexError, modelled as an exception. -/
def chanResizerBody (nchans : ℕ) (data : Img) : Res Img :=
  if 1000 < nchans ∨ nchans = 0 then .fail
  else
    let nchans_curr := data.length
    if nchans = nchans_curr then .ok data
    else if nchans_curr = 0 then .exn
    else if nchans_curr < nchans then
      .ok ((List.range nchans).map (fun i =>
        if i < nchans_curr then data.getD i [] else data.getD (nchans_curr - 1) []))
    else
      .ok ((List.range nchans).map (fun i => data.getD i []))

/-- The centered box test of BorderMasker (and of the box-masked statistics):
row r, column c of a channel of ny rows and nx columns lies inside
mask[ymin:ymax, xmin:xmax] with xc = nx/2, yc = ny/2, dy = int(ny*fract/2),
dx = int(nx*fract/2).  For 0 <= fract <= 1 the bounds are within range and
Python slicing needs no negative-index wrapping. -/
def inBoxB (fract : ℚ) (ny nx r c : ℕ) : Bool :=
  let yc : Int := (ny : Int) / 2
  let xc : Int := (nx : Int) / 2
  let dy : Int := ⌊(ny : ℚ) * fract / 2⌋
  let dx : Int := ⌊(nx : ℚ) * fract / 2⌋
  decide (yc - dy ≤ (r : Int) ∧ (r : Int) < yc + dy ∧
    xc - dx ≤ (c : Int) ∧ (c : Int) < xc + dx)

/-- The per-channel masking of BorderMasker: data_ch[mask == 0] = 0, where the
mask is 1 inside the centered box computed from the channel shape. -/
def borderMaskChan (fract : ℚ) (ch : Chan) : Chan :=
  let ny := ch.length
  let nx := (ch.headD []).length
  mapWithIdx (fun r row =>
    mapWithIdx (fun c p => if inBoxB fract ny nx r c then p else Px.fin 0) 0 row)
    0 ch

/-- BorderMasker.__call__ with its in-place effect on the caller tensor.
In the source, data_ch = data[:,:,i] is a view of the input array and
data_ch[mask == 0] = 0 writes through it, so each processed channel of the
input is mutated before being copied into the returned array.  The loop also
evaluates data_ch_1d.min() on the valid sample of each channel, which raises
ValueError on a channel with no valid pixel, aborting the loop with the
already-processed channels mutated.  The result is the pair
(final state of the input tensor, call outcome). -/
def bmLoop (fract : ℚ) : List Chan → (List Chan × Res (List Chan))
  | [] => ([], .ok [])
  | ch :: rest =>
    match minL (validVals ch) with
    | none => (ch :: rest, .exn)
    | some _ =>
      let ch2 := borderMaskChan fract ch
      match bmLoop fract rest with
      | (restIn, .ok restOut) => (ch2 :: restIn, .ok (ch2 :: restOut))
      | (restIn, .fail) => (ch2 :: restIn, .fail)
      | (restIn, .exn) => (ch2 :: restIn, .exn)

/-- The per-channel masking of MaskShrinker: erode the validity mask of the
channel (cv2.erode is external, taken as the function parameter erode) and
zero every pixel whose eroded mask entry is 0. -/
def shrinkChan (erode : List (List Bool) → List (List Bool)) (ch : Chan) : Chan :=
  let mask := ch.map (fun row => row.map Px.isValid)
  let mask_eroded := erode mask
  List.zipWith (fun row mrow =>
    List.zipWith (fun p m => if m then p else Px.fin 0) row mrow) ch mask_eroded

/-- MaskShrinker.__call__ with its in-place effect on the caller tensor.
In the source, img_eroded = data[:,:,i] is a view of the input array and
img_eroded[mask_eroded == 0] = 0 writes through it, so every channel of the
input is mutated; the returned copy receives the same values.  The result is
the pair (final state of the input tensor, returned tensor). -/
def msLoop (erode : List (List Bool) → List (List Bool)) :
    List Chan → (List Chan × List Chan)
  | [] => ([], [])
  | ch :: rest =>
    let ch2 := shrinkChan erode ch
    let p := msLoop erode rest
    (ch2 :: p.1, ch2 :: p.2)

/-- Resizer.__call__: return the input unchanged when the canvas already has
the target size; otherwise run the external resize backend (taken as the
function parameter rz; a backend exception is caught and yields None), and,
when set_pad_val_to_min is enabled, replace every invalid pixel of each
resized channel by the channel minimum of valid pixels (data_ch_1d.min()
raises ValueError on a channel with no valid pixel). -/
def resizerBody (resize_size : ℕ) (set_pad_val_to_min : Bool)
    (rz : Img → Option Img) (data : Img) : Res Img :=
  let ny := (data.headD []).length
  let nx := ((data.headD []).headD []).length
  if nx = resize_size ∧ ny = resize_size then .ok data
  else
    match rz data with
    | none => .fail
    | some dres =>
      if set_pad_val_to_min then
        resMapIdxM (fun _ ch =>
          match minL (validVals ch) with
          | none => .exn
          | some m =>
            .ok (chMap (fun p => if p.isValid then p else Px.fin m) ch)) 0 dres
      else .ok dres

/-- Augmenter.__call__: run the external imgaug augmentation backend (taken
as the function parameter aug); an exception from the backend is caught and
the stage returns None. -/
def augmenterBody (aug : Img → Option Img) (data : Img) : Res Img :=
  match aug data with
  | some d => .ok d
  | none => .fail

/-- The configured stage objects of the pipeline (each constructor carries the
constructor parameters of the corresponding Python class; external library
primitives appear as function fields). -/
inductive Stage where
  | minMaxNormalizer (norm_min norm_max : ℚ)
  | scaler (scale_factors : List ℚ)
  | standardizer (means sigmas : List ℚ)
  | shifter (offsets : List ℚ)
  | minShifter (chid : Int)
  | sigmaClipper (clipStats : List ℚ → ℚ × ℚ) (chid : Int)
  | zScaleTransformer (contrasts : List ℚ) (zs : ℚ → Chan → Chan)
  | logStretcher (lg : ℚ → ℚ) (chid : Int) (minmaxnorm : Bool)
      (data_norm_min data_norm_max : ℚ) (clip_neg : Bool)
  | chanDivider (chref : ℕ) (logtransf strip_ch trim : Bool)
      (trim_min trim_max : ℚ) (lg : ℚ → ℚ)
  | chanResizer (nchans : ℕ)
  | resizer (resize_size : ℕ) (set_pad_val_to_min : Bool) (rz : Img → Option Img)
  | augmenter (aug : Img → Option Img)

/-- The bound __call__ method of a stage object, on stage outcomes. -/
def Stage.call : Stage → Res Img → Res Img
  | .minMaxNormalizer a b => stageLift (minMaxNormalizerBody a b)
  | .scaler fs => stageLift (scalerBody fs)
  | .standardizer ms ss => stageLift (standardizerBody ms ss)
  | .shifter os => stageLift (shifterBody os)
  | .minShifter chid => stageLift (minShifterBody chid)
  | .sigmaClipper cs chid => stageLift (sigmaClipperBody cs chid)
  | .zScaleTransformer cons zs => stageLift (zScaleTransformerBody cons zs)
  | .logStretcher lg chid mm a b cn => stageLift (logStretcherBody lg chid mm a b cn)
  | .chanDivider cr lt sc tr tm tM lg => stageLift (chanDividerBody cr lt sc tr tm tM lg)
  | .chanResizer n => stageLift (chanResizerBody n)
  | .resizer sz pad rz => stageLift (resizerBody sz pad rz)
  | .augmenter aug => stageLift (augmenterBody aug)

/-- The isinstance(fcn.__self__, Augmenter) capability test used by
DataPreprocessor.disable_augmentation. -/
def Stage.isAugmenter : Stage → Bool
  | .augmenter _ => true
  | _ => false

/-- Modelled from the spec: Utils.compose_fcns is imported from
sclassifier.utils, which is not under src/.  Per the source comment in
DataPreprocessor.__init__ (fcn compose takes functions in the opposite
order) and spec section 4.5, compose_fcns f1 ... fn applies fn first and f1
last, i.e. it is ordinary function composition f1 after f2 after ... fn. -/
def compose_fcns : List Stage → Res Img → Res Img
  | [], x => x
  | s :: rest, x => s.call (compose_fcns rest x)

/-- DataPreprocessor: holds self.fcns, the stage list reversed at
construction so that the composition applies the first declared stage first. -/
structure DataPreprocessor where
  fcns : List Stage

/-- DataPreprocessor.__init__: collect the stage call methods and reverse the
list, because compose_fcns takes functions in the opposite order. -/
def DataPreprocessor.build (stages : List Stage) : DataPreprocessor :=
  ⟨stages.reverse⟩

/-- self.pipeline = Utils.compose_fcns(*self.fcns): the composed entry point,
kept in sync with self.fcns. -/
def DataPreprocessor.pipeline (dp : DataPreprocessor) : Res Img → Res Img :=
  compose_fcns dp.fcns

/-- DataPreprocessor.disable_augmentation: drop every stage whose bound object
is an Augmenter instance, keeping the remaining entries of self.fcns in
order, and recompose the pipeline. -/
def DataPreprocessor.disable_augmentation (dp : DataPreprocessor) :
    DataPreprocessor :=
  ⟨dp.fcns.filter (fun s => !s.isAugmenter)⟩


theorem zipWith_at_some {α β γ : Type} {f : α → β → γ} {l1 : List α}
    {l2 : List β} {i : ℕ} {a : α} {b : β}
    (h1 : l1[i]? = some a) (h2 : l2[i]? = some b) :
    (List.zipWith f l1 l2)[i]? = some (f a b) := by
  rw [List.getElem?_zipWith', h1, h2]
  rfl

theorem mapWithIdx_at_some {α β : Type} {f : ℕ → α → β} :
    ∀ {l : List α} {n i : ℕ} {a : α},
    l[i]? = some a → (mapWithIdx f n l)[i]? = some (f (n + i) a)
  | [], _, i, _, h => by simp at h
  | x :: xs, n, 0, a, h => by
    simp only [List.getElem?_cons_zero, Option.some.injEq] at h
    subst h
    simp [mapWithIdx]
  | x :: xs, n, i + 1, a, h => by
    simp only [List.getElem?_cons_succ] at h
    have := mapWithIdx_at_some (f := f) (n := n + 1) (i := i) h
    simpa [mapWithIdx, Nat.add_assoc, Nat.add_comm 1 i] using this

theorem mapWithIdx_length {α β : Type} {f : ℕ → α → β} :
    ∀ {l : List α} {n : ℕ}, (mapWithIdx f n l).length = l.length
  | [], _ => rfl
  | _ :: xs, n => by
    simp [mapWithIdx, mapWithIdx_length (l := xs) (n := n + 1)]

theorem resMapIdxM_ok_at {f : ℕ → Chan → Res Chan} :
    ∀ {l : List Chan} {n : ℕ} {out : List Chan},
    resMapIdxM f n l = .ok out →
    ∀ {i : ℕ} {a : Chan}, l[i]? = some a →
    ∃ b, f (n + i) a = .ok b ∧ out[i]? = some b
  | [], n, out, hok, i, a, ha => by simp at ha
  | x :: xs, n, out, hok, i, a, ha => by
    simp only [resMapIdxM] at hok
    cases hfx : f n x with
    | ok b =>
      rw [hfx] at hok
      cases hrest : resMapIdxM f (n + 1) xs with
      | ok bs =>
        rw [hrest] at hok
        simp only [Res.ok.injEq] at hok
        subst hok
        cases i with
        | zero =>
          simp only [List.getElem?_cons_zero, Option.some.injEq] at ha
          subst ha
          exact ⟨b, by simpa using hfx, by simp⟩
        | succ j =>
          simp only [List.getElem?_cons_succ] at ha
          obtain ⟨b2, hb2, hget⟩ := resMapIdxM_ok_at hrest ha
          refine ⟨b2, by simpa [Nat.add_assoc, Nat.add_comm 1 j] using hb2, ?_⟩
          simpa using hget
      | fail => rw [hrest] at hok; cases hok
      | exn => rw [hrest] at hok; cases hok
    | fail => rw [hfx] at hok; cases hok
    | exn => rw [hfx] at hok; cases hok

theorem at_length_lt {α : Type} {l : List α} {i : ℕ} {a : α}
    (h : l[i]? = some a) : i < l.length := by
  by_contra hge
  rw [List.getElem?_eq_none (Nat.le_of_not_lt hge)] at h
  cases h

theorem at_exists_of_lt {α : Type} {l : List α} {i : ℕ}
    (h : i < l.length) : ∃ a, l[i]? = some a := by
  cases hg : l[i]? with
  | none => exact absurd (List.getElem?_eq_none_iff.1 hg) (Nat.not_le_of_lt h)
  | some a => exact ⟨a, rfl⟩

theorem pxAt_eq_some {img : Img} {i r c : ℕ} {p : Px} :
    pxAt img i r c = some p ↔
    ∃ ch row, img[i]? = some ch ∧ ch[r]? = some row ∧ row[c]? = some p := by
  constructor
  · intro h
    unfold pxAt at h
    obtain ⟨ch, hch, h2⟩ := Option.bind_eq_some.1 h
    obtain ⟨row, hrow, h3⟩ := Option.bind_eq_some.1 h2
    exact ⟨ch, row, hch, hrow, h3⟩
  · rintro ⟨ch, row, hch, hrow, hc⟩
    unfold pxAt
    rw [hch, Option.some_bind, hrow, Option.some_bind]
    exact hc

theorem pxAt_of_parts {img : Img} {i r c : ℕ} {ch : List (List Px)}
    {row : List Px} {p : Px} (hch : img[i]? = some ch)
    (hrow : ch[r]? = some row) (hc : row[c]? = some p) :
    pxAt img i r c = some p :=
  pxAt_eq_some.2 ⟨ch, row, hch, hrow, hc⟩

theorem chMap_at_some {f : Px → Px} {ch : Chan} {r c : ℕ} {row : List Px}
    {p : Px} (hrow : ch[r]? = some row) (hc : row[c]? = some p) :
    ∃ row2, (chMap f ch)[r]? = some row2 ∧ row2[c]? = some (f p) := by
  refine ⟨row.map f, ?_, ?_⟩
  · simp [chMap, hrow]
  · simp [hc]

theorem restoreChan_invalid {orig nw : Chan} {r c : ℕ} {row : List Px} {p p2 : Px}
    (hrow : orig[r]? = some row) (hc : row[c]? = some p)
    (hinv : p.isValid = false)
    {row2 : List Px} (hrow2 : nw[r]? = some row2) (hc2 : row2[c]? = some p2) :
    ∃ row3, (restoreChan orig nw)[r]? = some row3 ∧ row3[c]? = some (Px.fin 0) := by
  unfold restoreChan zipWith2D
  refine ⟨_, zipWith_at_some hrow hrow2, ?_⟩
  have := zipWith_at_some
    (f := fun po pn => if po.isValid then pn else Px.fin 0) hc hc2
  simpa [hinv] using this

theorem getD_of_at_some {α : Type} {l : List α} {i : ℕ} {a d : α}
    (h : l[i]? = some a) : l.getD i d = a := by
  simp [List.getD_eq_getElem?_getD, h]

/-- C3 (confirmed): for every ordered stage list [A, B, C] and input x on
which every stage succeeds, the pipeline built by DataPreprocessor applies
the first declared stage first: the composed result is C(B(A(x))).
Utils.compose_fcns is modelled from the spec (section 4.5) as it is not
under src/. -/
theorem pipeline_applies_stages_in_declared_order (A B C : Stage) (x : Img)
    (hA : (A.call (Res.ok x)).isOk = true)
    (hB : (B.call (A.call (Res.ok x))).isOk = true)
    (hC : (C.call (B.call (A.call (Res.ok x)))).isOk = true) :
    (DataPreprocessor.build [A, B, C]).pipeline (Res.ok x)
      = C.call (B.call (A.call (Res.ok x))) := rfl

/-- Witness for C3 at a concrete stage list and input. -/
theorem pipeline_applies_stages_in_declared_order_witness :
    (((Stage.shifter [0]).call (Res.ok [[[Px.fin 1]]])).isOk = true)
    ∧ (((Stage.chanResizer 1).call ((Stage.shifter [0]).call
        (Res.ok [[[Px.fin 1]]]))).isOk = true)
    ∧ (((Stage.standardizer [0] [1]).call ((Stage.chanResizer 1).call
        ((Stage.shifter [0]).call (Res.ok [[[Px.fin 1]]])))).isOk = true)
    ∧ ((DataPreprocessor.build [Stage.shifter [0], Stage.chanResizer 1,
        Stage.standardizer [0] [1]]).pipeline (Res.ok [[[Px.fin 1]]])
      = (Stage.standardizer [0] [1]).call ((Stage.chanResizer 1).call
        ((Stage.shifter [0]).call (Res.ok [[[Px.fin 1]]])))) :=
  ⟨by decide, by decide, by decide,
    pipeline_applies_stages_in_declared_order (Stage.shifter [0])
      (Stage.chanResizer 1) (Stage.standardizer [0] [1]) [[[Px.fin 1]]]
      (by decide) (by decide) (by decide)⟩

/-- C6 (confirmed): for a pipeline built from
[Resizer, Augmenter, MinMaxNormalizer], disable_augmentation yields a
pipeline behaviorally equal to the one built directly from
[Resizer, MinMaxNormalizer]: the composed functions agree on every input,
and the retained stage entries keep their relative order (the stored fcns
lists coincide).  Utils.compose_fcns is modelled from the spec. -/
theorem disable_augmentation_equals_direct_build (sz : ℕ) (pad : Bool)
    (rz : Img → Option Img) (aug : Img → Option Img) (a b : ℚ) :
    (∀ x, ((DataPreprocessor.build [Stage.resizer sz pad rz,
        Stage.augmenter aug, Stage.minMaxNormalizer a b]).disable_augmentation).pipeline x
      = (DataPreprocessor.build [Stage.resizer sz pad rz,
        Stage.minMaxNormalizer a b]).pipeline x)
    ∧ ((DataPreprocessor.build [Stage.resizer sz pad rz,
        Stage.augmenter aug, Stage.minMaxNormalizer a b]).disable_augmentation).fcns
      = (DataPreprocessor.build [Stage.resizer sz pad rz,
        Stage.minMaxNormalizer a b]).fcns :=
  ⟨fun _ => rfl, rfl⟩

/-- C2 (code_bug evidence): MinShifter called on an all-zero single-channel
tensor evaluates np.min on an empty valid-pixel array, which raises
ValueError instead of returning the failure value None. -/
theorem minShifter_all_invalid_raises :
    minShifterBody (-1) [[[Px.fin 0]]] = Res.exn := by decide

/-- C5 (code_bug evidence): ChanDivider with strip_chref enabled reaches
np.delete(data_norm, chref, axis=2), whose bare name chref is undefined in
the method scope, so the call raises NameError on every input instead of
returning the tensor with the reference channel removed. -/
theorem chanDivider_strip_raises :
    chanDividerBody 0 false true false (-6) 6 (fun q => q)
      [[[Px.fin 5]], [[Px.fin 10]]] = Res.exn := by decide

/-- C8 (confirmed): for every tensor with at least one channel and every
target 0 < k <= 1000, ChanResizer(k) applied twice equals ChanResizer(k)
applied once, and when k exceeds the channel count the output keeps the
existing channels in place and fills every new slot with the last input
channel. -/
theorem chanResizer_idempotent_and_replicates_last (k : ℕ) (img : Img)
    (hk1 : 0 < k) (hk2 : k ≤ 1000) (hc : 0 < img.length) :
    Res.bind (chanResizerBody k img) (chanResizerBody k) = chanResizerBody k img
    ∧ (img.length < k →
      ∃ out, chanResizerBody k img = Res.ok out ∧ out.length = k
        ∧ (∀ i, i < img.length → out[i]? = img[i]?)
        ∧ (∀ i, img.length ≤ i → i < k → out[i]? = img[img.length - 1]?)) := by
  have hguard : ¬(1000 < k ∨ k = 0) := by omega
  have hc0 : ¬(img.length = 0) := by omega
  constructor
  · by_cases hkc : k = img.length
    · have hfst : chanResizerBody k img = Res.ok img := by
        simp only [chanResizerBody]
        rw [if_neg hguard, if_pos hkc]
      rw [hfst]
      show chanResizerBody k img = Res.ok img
      exact hfst
    · by_cases hlt : img.length < k
      · have hfst : chanResizerBody k img = Res.ok ((List.range k).map (fun i =>
            if i < img.length then img.getD i [] else img.getD (img.length - 1) [])) := by
          simp only [chanResizerBody]
          rw [if_neg hguard, if_neg hkc, if_neg hc0, if_pos hlt]
        have hlen : ((List.range k).map (fun i =>
            if i < img.length then img.getD i [] else img.getD (img.length - 1) [])).length = k := by
          simp
        rw [hfst]
        show chanResizerBody k _ = _
        simp only [chanResizerBody]
        rw [if_neg hguard, if_pos hlen.symm]
      · have hfst : chanResizerBody k img
            = Res.ok ((List.range k).map (fun i => img.getD i [])) := by
          simp only [chanResizerBody]
          rw [if_neg hguard, if_neg hkc, if_neg hc0, if_neg hlt]
        have hlen : ((List.range k).map (fun i => img.getD i [])).length = k := by simp
        rw [hfst]
        show chanResizerBody k _ = _
        simp only [chanResizerBody]
        rw [if_neg hguard, if_pos hlen.symm]
  · intro hlt
    have hkc : ¬(k = img.length) := by omega
    refine ⟨(List.range k).map (fun i =>
      if i < img.length then img.getD i [] else img.getD (img.length - 1) []),
      ?_, by simp, ?_, ?_⟩
    · simp only [chanResizerBody]
      rw [if_neg hguard, if_neg hkc, if_neg hc0, if_pos hlt]
    · intro i hi
      obtain ⟨a, ha⟩ := at_exists_of_lt hi
      rw [List.getElem?_map, List.getElem?_range (by omega)]
      simp only [Option.map_some']
      rw [if_pos hi, getD_of_at_some ha, ha]
    · intro i hge hik
      have hlast : img.length - 1 < img.length := by omega
      obtain ⟨a, ha⟩ := at_exists_of_lt hlast
      rw [List.getElem?_map, List.getElem?_range hik]
      simp only [Option.map_some']
      rw [if_neg (by omega), getD_of_at_some ha, ha]

/-- Witness for C8 at a concrete expansion from 1 to 3 channels. -/
theorem chanResizer_idempotent_and_replicates_last_witness :
    (0 < 3 ∧ 3 ≤ 1000 ∧ 0 < ([[[Px.fin 1, Px.nan]]] : Img).length)
    ∧ (Res.bind (chanResizerBody 3 [[[Px.fin 1, Px.nan]]]) (chanResizerBody 3)
        = chanResizerBody 3 [[[Px.fin 1, Px.nan]]]
      ∧ (([[[Px.fin 1, Px.nan]]] : Img).length < 3 →
        ∃ out, chanResizerBody 3 [[[Px.fin 1, Px.nan]]] = Res.ok out
          ∧ out.length = 3
          ∧ (∀ i, i < ([[[Px.fin 1, Px.nan]]] : Img).length →
              out[i]? = ([[[Px.fin 1, Px.nan]]] : Img)[i]?)
          ∧ (∀ i, ([[[Px.fin 1, Px.nan]]] : Img).length ≤ i → i < 3 →
              out[i]? = ([[[Px.fin 1, Px.nan]]] : Img)[([[[Px.fin 1, Px.nan]]] : Img).length - 1]?))) :=
  ⟨⟨by decide, by decide, by decide⟩,
    chanResizer_idempotent_and_replicates_last 3 [[[Px.fin 1, Px.nan]]]
      (by decide) (by decide) (by decide)⟩

/-- C10 (confirmed): with norm_min = 0, MinMaxNormalizer maps the minimum
valid pixel of a channel whose valid pixels are not all equal to exactly 0,
a value the shared zero-means-invalid convention classifies as invalid, so
downstream stages treat the pixel as masked. -/
theorem minMaxNormalizer_min_pixel_becomes_masked (nmax : ℚ) (img out : Img)
    (i r c : ℕ) (ch : Chan) (row : List Px) (m M : ℚ)
    (hok : minMaxNormalizerBody 0 nmax img = Res.ok out)
    (hch : img[i]? = some ch)
    (hmin : minL (validVals ch) = some m)
    (hmax : maxL (validVals ch) = some M)
    (hne : M ≠ m) (hm : m ≠ 0)
    (hrow : ch[r]? = some row) (hpx : row[c]? = some (Px.fin m)) :
    pxAt out i r c = some (Px.fin 0) ∧ Px.isValid (Px.fin 0) = false := by
  obtain ⟨b, hb, hbi⟩ := resMapIdxM_ok_at hok hch
  rw [hmin, hmax] at hb
  simp only [Res.ok.injEq] at hb
  subst hb
  obtain ⟨row2, hrow2, hc2⟩ := chMap_at_some
    (f := fun p => if p.isValid = true then
      Px.add (Px.mul (Px.div (Px.sub p (Px.fin m)) (Px.fin (M - m)))
        (Px.fin (nmax - 0))) (Px.fin 0)
    else Px.fin 0) hrow hpx
  have hval : (if (Px.fin m).isValid then
      Px.add (Px.mul (Px.div (Px.sub (Px.fin m) (Px.fin m)) (Px.fin (M - m)))
        (Px.fin (nmax - 0))) (Px.fin 0)
    else Px.fin 0) = Px.fin 0 := by
    have hMm : M - m ≠ 0 := sub_ne_zero.2 hne
    simp [Px.isValid, hm, Px.sub, Px.div, Px.mul, Px.add, hMm]
  rw [hval] at hc2
  exact ⟨pxAt_of_parts hbi hrow2 hc2, rfl⟩

/-- Witness for C10 on the channel with valid pixels 1 and 2. -/
theorem minMaxNormalizer_min_pixel_becomes_masked_witness :
    (minMaxNormalizerBody 0 1 [[[Px.fin 1, Px.fin 2]]]
        = Res.ok [[[Px.fin 0, Px.fin 1]]]
      ∧ minL (validVals [[Px.fin 1, Px.fin 2]]) = some 1
      ∧ maxL (validVals [[Px.fin 1, Px.fin 2]]) = some 2
      ∧ (2 : ℚ) ≠ 1 ∧ (1 : ℚ) ≠ 0)
    ∧ (pxAt [[[Px.fin 0, Px.fin 1]]] 0 0 0 = some (Px.fin 0)
      ∧ Px.isValid (Px.fin 0) = false) :=
  ⟨⟨by decide, by decide, by decide, by decide, by decide⟩,
    minMaxNormalizer_min_pixel_becomes_masked 1 [[[Px.fin 1, Px.fin 2]]]
      [[[Px.fin 0, Px.fin 1]]] 0 0 0 [[Px.fin 1, Px.fin 2]] [Px.fin 1, Px.fin 2]
      1 2 (by decide) (by decide) (by decide) (by decide) (by decide) (by decide)
      (by decide) (by decide)⟩

theorem blt_eq_false_of_not_lt {a b : ℚ} (h : ¬(a < b)) : Rat.blt a b = false := by
  rw [Bool.eq_false_iff]
  intro hb
  exact h (Iff.rfl.1 hb)

theorem minMax_restores_invalid {a b : ℚ} {img out : Img} {i r c : ℕ} {p : Px}
    (hok : minMaxNormalizerBody a b img = Res.ok out)
    (hpx : pxAt img i r c = some p) (hinv : p.isValid = false) :
    pxAt out i r c = some (Px.fin 0) := by
  obtain ⟨ch, row, hch, hrow, hc⟩ := pxAt_eq_some.1 hpx
  obtain ⟨bb, hb, hbi⟩ := resMapIdxM_ok_at hok hch
  cases hminv : minL (validVals ch) with
  | none => rw [hminv] at hb; simp at hb
  | some m =>
    cases hmaxv : maxL (validVals ch) with
    | none => rw [hminv, hmaxv] at hb; simp at hb
    | some M =>
      rw [hminv, hmaxv] at hb
      simp only [Res.ok.injEq] at hb
      subst hb
      obtain ⟨row2, hrow2, hc2⟩ := chMap_at_some
        (f := fun p => if p.isValid = true then
          Px.add (Px.mul (Px.div (Px.sub p (Px.fin m)) (Px.fin (M - m)))
            (Px.fin (b - a))) (Px.fin a)
        else Px.fin 0) hrow hc
      rw [hinv] at hc2
      simp only [Bool.false_eq_true, if_false] at hc2
      exact pxAt_of_parts hbi hrow2 hc2

theorem standardizer_restores_invalid {means sigmas : List ℚ} {img out : Img}
    {i r c : ℕ} {p : Px}
    (hok : standardizerBody means sigmas img = Res.ok out)
    (hpx : pxAt img i r c = some p) (hinv : p.isValid = false) :
    pxAt out i r c = some (Px.fin 0) := by
  obtain ⟨ch, row, hch, hrow, hc⟩ := pxAt_eq_some.1 hpx
  unfold standardizerBody at hok
  split at hok
  · cases hok
  · split at hok
    · cases hok
    · simp only [Res.ok.injEq] at hok
      subst hok
      have hbi := mapWithIdx_at_some
        (f := fun i ch => chMap (fun p => if p.isValid = true then
          Px.div (Px.sub p (Px.fin (means.getD i 0))) (Px.fin (sigmas.getD i 0))
        else Px.fin 0) ch) (n := 0) hch
      rw [Nat.zero_add] at hbi
      obtain ⟨row2, hrow2, hc2⟩ := chMap_at_some
        (f := fun p => if p.isValid = true then
          Px.div (Px.sub p (Px.fin (means.getD i 0))) (Px.fin (sigmas.getD i 0))
        else Px.fin 0) hrow hc
      rw [hinv] at hc2
      simp only [Bool.false_eq_true, if_false] at hc2
      exact pxAt_of_parts hbi hrow2 hc2

theorem shifter_restores_invalid {offsets : List ℚ} {img out : Img}
    {i r c : ℕ} {p : Px}
    (hok : shifterBody offsets img = Res.ok out)
    (hpx : pxAt img i r c = some p) (hinv : p.isValid = false) :
    pxAt out i r c = some (Px.fin 0) := by
  obtain ⟨ch, row, hch, hrow, hc⟩ := pxAt_eq_some.1 hpx
  unfold shifterBody at hok
  split at hok
  · cases hok
  · simp only [Res.ok.injEq] at hok
    subst hok
    have hbi := mapWithIdx_at_some
      (f := fun i ch => chMap (fun p => if p.isValid = true then
        Px.sub p (Px.fin (offsets.getD i 0)) else Px.fin 0) ch) (n := 0) hch
    rw [Nat.zero_add] at hbi
    obtain ⟨row2, hrow2, hc2⟩ := chMap_at_some
      (f := fun p => if p.isValid = true then
        Px.sub p (Px.fin (offsets.getD i 0)) else Px.fin 0) hrow hc
    rw [hinv] at hc2
    simp only [Bool.false_eq_true, if_false] at hc2
    exact pxAt_of_parts hbi hrow2 hc2

theorem sigmaClipper_restores_invalid {cs : List ℚ → ℚ × ℚ} {img out : Img}
    {i r c : ℕ} {p : Px}
    (hok : sigmaClipperBody cs (-1) img = Res.ok out)
    (hpx : pxAt img i r c = some p) (hinv : p.isValid = false) :
    pxAt out i r c = some (Px.fin 0) := by
  obtain ⟨ch, row, hch, hrow, hc⟩ := pxAt_eq_some.1 hpx
  unfold sigmaClipperBody at hok
  simp only [Res.ok.injEq] at hok
  subst hok
  have hbi := mapWithIdx_at_some
    (f := fun i ch => if (-1 : Int) ≠ -1 ∧ (i : Int) ≠ -1 then ch else
      let thr := cs (validVals ch)
      chMap (fun p => if p.isValid = true then
        (let p1 := if p.ltB thr.1 then Px.fin thr.1 else p;
         if p1.gtB thr.2 then Px.fin thr.2 else p1)
      else Px.fin 0) ch) (n := 0) hch
  rw [Nat.zero_add] at hbi
  simp only [ne_eq, not_true_eq_false, false_and, if_false] at hbi
  obtain ⟨row2, hrow2, hc2⟩ := chMap_at_some
    (f := fun p => if p.isValid = true then
      (let p1 := if p.ltB (cs (validVals ch)).1 then Px.fin (cs (validVals ch)).1 else p;
       if p1.gtB (cs (validVals ch)).2 then Px.fin (cs (validVals ch)).2 else p1)
    else Px.fin 0) hrow hc
  rw [hinv] at hc2
  simp only [Bool.false_eq_true, if_false] at hc2
  exact pxAt_of_parts hbi hrow2 hc2

theorem scaler_preserves_zero {fs : List ℚ} {img out : Img} {i r c : ℕ}
    (hok : scalerBody fs img = Res.ok out)
    (hpx : pxAt img i r c = some (Px.fin 0)) :
    pxAt out i r c = some (Px.fin 0) := by
  obtain ⟨ch, row, hch, hrow, hc⟩ := pxAt_eq_some.1 hpx
  unfold scalerBody at hok
  split at hok
  · cases hok
  · rename_i hcond
    simp only [Res.ok.injEq] at hok
    subst hok
    have hlen : fs.length = img.length := by
      rcases not_or.1 hcond with ⟨h1, h2⟩
      exact not_not.1 h2
    obtain ⟨f, hf⟩ := at_exists_of_lt (l := fs) (hlen ▸ at_length_lt hch)
    have hbi := zipWith_at_some
      (f := fun f ch => chMap (fun p => Px.mul p (Px.fin f)) ch) hf hch
    obtain ⟨row2, hrow2, hc2⟩ := chMap_at_some
      (f := fun p => Px.mul p (Px.fin f)) hrow hc
    have hval : Px.mul (Px.fin 0) (Px.fin f) = Px.fin 0 := by
      simp [Px.mul]
    rw [hval] at hc2
    exact pxAt_of_parts hbi hrow2 hc2

theorem zScale_restores_invalid {contrasts : List ℚ} {zs : ℚ → Chan → Chan}
    {img out : Img} {i r c : ℕ} {p : Px}
    (hzs : ∀ q ch, (zs q ch).map List.length = ch.map List.length)
    (hok : zScaleTransformerBody contrasts zs img = Res.ok out)
    (hpx : pxAt img i r c = some p) (hinv : p.isValid = false) :
    pxAt out i r c = some (Px.fin 0) := by
  obtain ⟨ch, row, hch, hrow, hc⟩ := pxAt_eq_some.1 hpx
  unfold zScaleTransformerBody at hok
  split at hok
  · cases hok
  · simp only [Res.ok.injEq] at hok
    subst hok
    have hbi := mapWithIdx_at_some
      (f := fun i ch => restoreChan ch (zs (contrasts.getD i 0) ch)) (n := 0) hch
    rw [Nat.zero_add] at hbi
    have hlen : ((zs (contrasts.getD i 0) ch).map List.length)[r]?
        = some row.length := by
      rw [hzs, List.getElem?_map, hrow, Option.map_some']
    rw [List.getElem?_map] at hlen
    obtain ⟨rn, hrn, hrnlen⟩ := Option.map_eq_some'.1 hlen
    obtain ⟨pn, hpn⟩ := at_exists_of_lt (l := rn)
      (hrnlen ▸ at_length_lt hc)
    obtain ⟨row3, hrow3, hc3⟩ := restoreChan_invalid hrow hc hinv hrn hpn
    exact pxAt_of_parts hbi hrow3 hc3

theorem cdTrimPx_zero {tmin tmax : ℚ} (h1 : tmin ≤ 0) (h2 : 0 ≤ tmax) :
    cdTrimPx tmin tmax (Px.fin 0) = Px.fin 0 := by
  simp [cdTrimPx, Px.gtB, Px.ltB, blt_eq_false_of_not_lt (not_lt.2 h2),
    blt_eq_false_of_not_lt (not_lt.2 h1)]

theorem imgMap_at_some {f : Px → Px} {img : Img} {i : ℕ} {ch : Chan}
    (h : img[i]? = some ch) : (imgMap f img)[i]? = some (chMap f ch) := by
  unfold imgMap
  rw [List.getElem?_map, h, Option.map_some']

theorem cdPutRef_at (chref : ℕ) (refOut : Chan) {data : Img} {i : ℕ} {ch : Chan}
    (h : data[i]? = some ch) :
    (cdPutRef chref refOut data)[i]? = some (if i = chref then refOut else ch) := by
  unfold cdPutRef
  have h2 := mapWithIdx_at_some
    (f := fun j ch2 => if j = chref then refOut else ch2) (n := 0) h
  rw [Nat.zero_add] at h2
  exact h2

theorem chanDivider_restores_invalid {chref : ℕ} {logt trm : Bool}
    {tmin tmax : ℚ} {lg : ℚ → ℚ} {img out : Img} {i r c : ℕ} {p pr : Px}
    (hok : chanDividerBody chref logt false trm tmin tmax lg img = Res.ok out)
    (htrim : trm = true → tmin ≤ 0 ∧ 0 ≤ tmax)
    (hpx : pxAt img i r c = some p) (hinv : p.isValid = false)
    (href : pxAt img chref r c = some pr) :
    pxAt out i r c = some (Px.fin 0) := by
  obtain ⟨ch, row, hch, hrow, hc⟩ := pxAt_eq_some.1 hpx
  obtain ⟨refch, rrow, href1, href2, href3⟩ := pxAt_eq_some.1 href
  unfold chanDividerBody at hok
  rw [href1] at hok
  simp only [Bool.false_eq_true, if_false, Res.ok.injEq] at hok
  subst hok
  have hAi : (cdRatioed chref refch img)[i]? = some
      (if i = chref then refch else zipWith2D cdDivPx ch refch) := by
    have h2 := mapWithIdx_at_some
      (f := fun j ch2 => if j = chref then refch else zipWith2D cdDivPx ch2 refch)
      (n := 0) hch
    rw [Nat.zero_add] at h2
    exact h2
  obtain ⟨rowR, vR, hRr, hRc⟩ :
      ∃ rowR vR,
        (if i = chref then refch else zipWith2D cdDivPx ch refch)[r]? = some rowR
        ∧ rowR[c]? = some vR := by
    by_cases hic : i = chref
    · rw [if_pos hic]
      exact ⟨rrow, pr, href2, href3⟩
    · rw [if_neg hic]
      exact ⟨List.zipWith cdDivPx row rrow, cdDivPx p pr,
        zipWith_at_some hrow href2, zipWith_at_some hc href3⟩
  have hni : (restoreImg img (cdRatioed chref refch img))[i]?
      = some (restoreChan ch (if i = chref then refch else zipWith2D cdDivPx ch refch)) :=
    zipWith_at_some hch hAi
  obtain ⟨row3, hrow3, hc3⟩ := restoreChan_invalid hrow hc hinv hRr hRc
  cases logt with
  | false =>
    simp only [Bool.false_eq_true, if_false]
    exact pxAt_of_parts hni hrow3 hc3
  | true =>
    simp only [if_true]
    have hLDi := imgMap_at_some (f := cdLogPx lg) hni
    obtain ⟨row4, hrow4, hc4⟩ := chMap_at_some (f := cdLogPx lg) hrow3 hc3
    have hLRi := zipWith_at_some (f := restoreChan) hch hLDi
    obtain ⟨row5, hrow5, hc5⟩ := restoreChan_invalid hrow hc hinv hrow4 hc4
    cases trm with
    | false =>
      simp only [Bool.false_eq_true, if_false]
      have hfin := cdPutRef_at chref
        ((restoreImg img (cdRatioed chref refch img)).getD chref []) hLRi
      by_cases hic : i = chref
      · subst hic
        simp only [eq_self_iff_true, if_true] at hfin hni hrow3
        rw [getD_of_at_some hni] at hfin ⊢
        exact pxAt_of_parts hfin hrow3 hc3
      · rw [if_neg hic] at hfin
        exact pxAt_of_parts hfin hrow5 hc5
    | true =>
      simp only [if_true]
      have hLTi := imgMap_at_some (f := cdTrimPx tmin tmax) hLRi
      obtain ⟨row6, hrow6, hc6⟩ := chMap_at_some (f := cdTrimPx tmin tmax) hrow5 hc5
      rw [cdTrimPx_zero (htrim rfl).1 (htrim rfl).2] at hc6
      have hfin := cdPutRef_at chref
        ((restoreImg img (cdRatioed chref refch img)).getD chref []) hLTi
      by_cases hic : i = chref
      · subst hic
        simp only [eq_self_iff_true, if_true] at hfin hni hrow3
        rw [getD_of_at_some hni] at hfin ⊢
        exact pxAt_of_parts hfin hrow3 hc3
      · rw [if_neg hic] at hfin
        exact pxAt_of_parts hfin hrow6 hc6

/-- C1 (counterexample): Scaler performs no mask restoration, so the NaN
input pixel of a tensor whose channel mixes a finite-nonzero pixel, a zero
pixel and a NaN pixel is NaN in the output at the same coordinates, not 0,
refuting the claim as stated for Scaler. -/
theorem scaler_does_not_restore_nan :
    scalerBody [2] [[[Px.fin 1, Px.fin 0, Px.nan]]]
      = Res.ok [[[Px.fin 2, Px.fin 0, Px.nan]]]
    ∧ Px.isValid Px.nan = false
    ∧ pxAt [[[Px.fin 2, Px.fin 0, Px.nan]]] 0 0 2 = some Px.nan
    ∧ pxAt [[[Px.fin 2, Px.fin 0, Px.nan]]] 0 0 2 ≠ some (Px.fin 0) :=
  ⟨by decide, rfl, by decide, by decide⟩

/-- C1 (amended): every pixel invalid in the input is exactly 0 at the same
coordinates of the output for MinMaxNormalizer, Standardizer, Shifter,
SigmaClipper applied to all channels (chid = -1), ChanDivider without
reference-channel stripping and with trim bounds enclosing 0 (at coordinates
the reference channel covers), and ZScaleTransformer under any
shape-preserving stretch; Scaler keeps zero pixels at 0 (zero times a factor
is zero) but propagates NaN pixels as NaN instead of restoring them to 0. -/
theorem mask_restoration_amended :
    (∀ (a b : ℚ) (img out : Img) (i r c : ℕ) (p : Px),
      minMaxNormalizerBody a b img = Res.ok out →
      pxAt img i r c = some p → p.isValid = false →
      pxAt out i r c = some (Px.fin 0))
    ∧ (∀ (means sigmas : List ℚ) (img out : Img) (i r c : ℕ) (p : Px),
      standardizerBody means sigmas img = Res.ok out →
      pxAt img i r c = some p → p.isValid = false →
      pxAt out i r c = some (Px.fin 0))
    ∧ (∀ (offsets : List ℚ) (img out : Img) (i r c : ℕ) (p : Px),
      shifterBody offsets img = Res.ok out →
      pxAt img i r c = some p → p.isValid = false →
      pxAt out i r c = some (Px.fin 0))
    ∧ (∀ (cs : List ℚ → ℚ × ℚ) (img out : Img) (i r c : ℕ) (p : Px),
      sigmaClipperBody cs (-1) img = Res.ok out →
      pxAt img i r c = some p → p.isValid = false →
      pxAt out i r c = some (Px.fin 0))
    ∧ (∀ (chref : ℕ) (logt trm : Bool) (tmin tmax : ℚ) (lg : ℚ → ℚ)
        (img out : Img) (i r c : ℕ) (p pr : Px),
      chanDividerBody chref logt false trm tmin tmax lg img = Res.ok out →
      (trm = true → tmin ≤ 0 ∧ 0 ≤ tmax) →
      pxAt img i r c = some p → p.isValid = false →
      pxAt img chref r c = some pr →
      pxAt out i r c = some (Px.fin 0))
    ∧ (∀ (contrasts : List ℚ) (zs : ℚ → Chan → Chan) (img out : Img)
        (i r c : ℕ) (p : Px),
      (∀ q ch, (zs q ch).map List.length = ch.map List.length) →
      zScaleTransformerBody contrasts zs img = Res.ok out →
      pxAt img i r c = some p → p.isValid = false →
      pxAt out i r c = some (Px.fin 0))
    ∧ (∀ (fs : List ℚ) (img out : Img) (i r c : ℕ),
      scalerBody fs img = Res.ok out →
      pxAt img i r c = some (Px.fin 0) →
      pxAt out i r c = some (Px.fin 0)) :=
  ⟨fun _ _ _ _ _ _ _ _ hok hpx hinv => minMax_restores_invalid hok hpx hinv,
   fun _ _ _ _ _ _ _ _ hok hpx hinv => standardizer_restores_invalid hok hpx hinv,
   fun _ _ _ _ _ _ _ hok hpx hinv => shifter_restores_invalid hok hpx hinv,
   fun _ _ _ _ _ _ _ hok hpx hinv => sigmaClipper_restores_invalid hok hpx hinv,
   fun _ _ _ _ _ _ _ _ _ _ _ _ _ hok ht hpx hinv href =>
     chanDivider_restores_invalid hok ht hpx hinv href,
   fun _ _ _ _ _ _ _ _ hzs hok hpx hinv => zScale_restores_invalid hzs hok hpx hinv,
   fun _ _ _ _ _ _ hok hpx => scaler_preserves_zero hok hpx⟩

/-- Witness for the amended C1, one concrete instance per stage. -/
theorem mask_restoration_amended_witness :
    pxAt [[[Px.fin 0, Px.fin 1, Px.fin 0]]] 0 0 2 = some (Px.fin 0)
    ∧ pxAt [[[Px.fin 2, Px.fin 0]]] 0 0 1 = some (Px.fin 0)
    ∧ pxAt [[[Px.fin 2, Px.fin 0]]] 0 0 1 = some (Px.fin 0)
    ∧ pxAt [[[Px.fin 1, Px.fin 0]]] 0 0 1 = some (Px.fin 0)
    ∧ pxAt [[[Px.fin 5]], [[Px.fin 0]]] 1 0 0 = some (Px.fin 0)
    ∧ pxAt [[[Px.fin 0, Px.fin 3]]] 0 0 0 = some (Px.fin 0)
    ∧ pxAt [[[Px.fin 2, Px.fin 0, Px.nan]]] 0 0 1 = some (Px.fin 0) :=
  ⟨mask_restoration_amended.1 0 1 [[[Px.fin 1, Px.fin 2, Px.nan]]]
      [[[Px.fin 0, Px.fin 1, Px.fin 0]]] 0 0 2 Px.nan
      (by decide) (by decide) (by decide),
   mask_restoration_amended.2.1 [0] [1] [[[Px.fin 2, Px.fin 0]]]
      [[[Px.fin 2, Px.fin 0]]] 0 0 1 (Px.fin 0)
      (by decide) (by decide) (by decide),
   mask_restoration_amended.2.2.1 [1] [[[Px.fin 3, Px.nan]]]
      [[[Px.fin 2, Px.fin 0]]] 0 0 1 Px.nan
      (by decide) (by decide) (by decide),
   mask_restoration_amended.2.2.2.1 (fun _ => (0, 1)) [[[Px.fin 5, Px.fin 0]]]
      [[[Px.fin 1, Px.fin 0]]] 0 0 1 (Px.fin 0)
      (by decide) (by decide) (by decide),
   mask_restoration_amended.2.2.2.2.1 0 false false (-6) 6 (fun q => q)
      [[[Px.fin 5]], [[Px.nan]]] [[[Px.fin 5]], [[Px.fin 0]]] 1 0 0 Px.nan (Px.fin 5)
      (by decide) (by decide) (by decide) (by decide) (by decide),
   mask_restoration_amended.2.2.2.2.2.1 [1] (fun _ ch => ch)
      [[[Px.nan, Px.fin 3]]] [[[Px.fin 0, Px.fin 3]]] 0 0 0 Px.nan
      (fun _ _ => rfl) (by decide) (by decide) (by decide),
   mask_restoration_amended.2.2.2.2.2.2 [2] [[[Px.fin 1, Px.fin 0, Px.nan]]]
      [[[Px.fin 2, Px.fin 0, Px.nan]]] 0 0 1
      (by decide) (by decide)⟩

/-- The external np.log10 sampled at the pixel values of the log-stretch
scenario: log10(0.01) = -2, log10(1) = 0, log10(100) = 2. -/
def lg10Table (q : ℚ) : ℚ :=
  if q = 1 / 100 then -2 else if q = 100 then 2 else 0

/-- C4 (counterexample): on the scenario channel with valid pixels
0.01, 1, 100 and one masked zero pixel, LogStretcher with min/max
normalization and negative clipping disabled leaves the masked pixel at the
channel minimum log value -2, not at 0 as the claim states: the restoration
of bad pixels to 0 runs only inside the min/max-normalization branch. -/
theorem logStretcher_masked_pixel_not_zero :
    logStretcherBody lg10Table (-1) false (-6) 6 false
      [[[Px.fin (1 / 100), Px.fin 1], [Px.fin 100, Px.fin 0]]]
      = Res.ok [[[Px.fin (-2), Px.fin 0], [Px.fin 2, Px.fin (-2)]]]
    ∧ pxAt [[[Px.fin (-2), Px.fin 0], [Px.fin 2, Px.fin (-2)]]] 0 1 1
        = some (Px.fin (-2))
    ∧ pxAt [[[Px.fin (-2), Px.fin 0], [Px.fin 2, Px.fin (-2)]]] 0 1 1
        ≠ some (Px.fin 0) :=
  ⟨by decide, by decide, by decide⟩

/-- C4 (amended): LogStretcher with min/max normalization and negative
clipping disabled maps the scenario valid pixels 0.01, 1, 100 to -2, 0, 2,
and maps the masked zero pixel to the channel minimum log value -2 instead
of restoring it to 0 (np.log10 is modelled by lg10Table at the sampled
values). -/
theorem logStretcher_scenario_amended :
    logStretcherBody lg10Table (-1) false (-6) 6 false
      [[[Px.fin (1 / 100), Px.fin 1], [Px.fin 100, Px.fin 0]]]
      = Res.ok [[[Px.fin (-2), Px.fin 0], [Px.fin 2, Px.fin (-2)]]] := by
  decide

theorem cdDivPx_ref_invalid {p pr : Px} (hpr : pr.isValid = false) :
    cdDivPx p pr = Px.fin 0 := by
  simp [cdDivPx, hpr]

theorem chanDivider_ref_invalid_zero {chref : ℕ} {trm : Bool} {tmin tmax : ℚ}
    {lg : ℚ → ℚ} {img out : Img} {i r c : ℕ} {p pr : Px}
    (hok : chanDividerBody chref false false trm tmin tmax lg img = Res.ok out)
    (hi : i ≠ chref)
    (hpx : pxAt img i r c = some p)
    (href : pxAt img chref r c = some pr) (hpr : pr.isValid = false) :
    pxAt out i r c = some (Px.fin 0) := by
  obtain ⟨ch, row, hch, hrow, hc⟩ := pxAt_eq_some.1 hpx
  obtain ⟨refch, rrow, href1, href2, href3⟩ := pxAt_eq_some.1 href
  unfold chanDividerBody at hok
  rw [href1] at hok
  simp only [Bool.false_eq_true, if_false, Res.ok.injEq] at hok
  subst hok
  have hAi : (cdRatioed chref refch img)[i]? = some (zipWith2D cdDivPx ch refch) := by
    have h2 := mapWithIdx_at_some
      (f := fun j ch2 => if j = chref then refch else zipWith2D cdDivPx ch2 refch)
      (n := 0) hch
    rw [Nat.zero_add] at h2
    simpa [hi] using h2
  have hni : (restoreImg img (cdRatioed chref refch img))[i]?
      = some (restoreChan ch (zipWith2D cdDivPx ch refch)) :=
    zipWith_at_some hch hAi
  have hRr : (zipWith2D cdDivPx ch refch)[r]? = some (List.zipWith cdDivPx row rrow) :=
    zipWith_at_some hrow href2
  have hRc : (List.zipWith cdDivPx row rrow)[c]? = some (cdDivPx p pr) :=
    zipWith_at_some hc href3
  rw [cdDivPx_ref_invalid hpr] at hRc
  have hrow2 : (restoreChan ch (zipWith2D cdDivPx ch refch))[r]?
      = some (List.zipWith (fun po pn => if po.isValid then pn else Px.fin 0)
        row (List.zipWith cdDivPx row rrow)) := by
    unfold restoreChan zipWith2D
    exact zipWith_at_some hrow hRr
  have hc2 : (List.zipWith (fun po pn => if po.isValid then pn else Px.fin 0)
      row (List.zipWith cdDivPx row rrow))[c]? = some (Px.fin 0) := by
    have h3 := zipWith_at_some
      (f := fun po pn => if po.isValid then pn else Px.fin 0) hc hRc
    simpa [ite_self] using h3
  exact pxAt_of_parts hni hrow2 hc2

/-- C7 (confirmed): on a two-channel tensor whose reference channel is
uniformly 5 and whose second channel holds 10, 0, 15, ChanDivider(chref = 0)
without log transform or stripping returns the second channel as 2, 0, 3;
and in general the ratio is forced to exactly 0 at every coordinate of a
non-reference channel where the reference pixel is invalid. -/
theorem chanDivider_scenario :
    (chanDividerBody 0 false false false (-6) 6 (fun q => q)
        [[[Px.fin 5, Px.fin 5, Px.fin 5]], [[Px.fin 10, Px.fin 0, Px.fin 15]]]
      = Res.ok [[[Px.fin 5, Px.fin 5, Px.fin 5]], [[Px.fin 2, Px.fin 0, Px.fin 3]]])
    ∧ (∀ (chref : ℕ) (trm : Bool) (tmin tmax : ℚ) (lg : ℚ → ℚ)
        (img out : Img) (i r c : ℕ) (p pr : Px),
      chanDividerBody chref false false trm tmin tmax lg img = Res.ok out →
      i ≠ chref →
      pxAt img i r c = some p →
      pxAt img chref r c = some pr → pr.isValid = false →
      pxAt out i r c = some (Px.fin 0)) :=
  ⟨by decide,
   fun _ _ _ _ _ _ _ _ _ _ _ _ hok hi hpx href hpr =>
     chanDivider_ref_invalid_zero hok hi hpx href hpr⟩

/-- Witness for the general part of C7, at a reference channel with a NaN
pixel. -/
theorem chanDivider_scenario_witness :
    ((1 : ℕ) ≠ 0 ∧ Px.isValid Px.nan = false)
    ∧ pxAt [[[Px.fin 0]], [[Px.fin 0]]] 1 0 0 = some (Px.fin 0) :=
  ⟨⟨by decide, rfl⟩,
   chanDivider_scenario.2 0 false (-6) 6 (fun q => q)
     [[[Px.nan]], [[Px.fin 7]]] [[[Px.fin 0]], [[Px.fin 0]]] 1 0 0
     (Px.fin 7) Px.nan (by decide) (by decide) (by decide) (by decide) rfl⟩

theorem minL_eq_none {l : List ℚ} : minL l = none ↔ l = [] := by
  cases l <;> simp [minL]

theorem mapWithIdx_at_some_inv {α β : Type} {f : ℕ → α → β} {l : List α}
    {n i : ℕ} {b : β} (h : (mapWithIdx f n l)[i]? = some b) :
    ∃ a, l[i]? = some a ∧ b = f (n + i) a := by
  have hi : i < l.length := by
    have h2 := at_length_lt h
    rwa [mapWithIdx_length] at h2
  obtain ⟨a, ha⟩ := at_exists_of_lt hi
  have h2 := mapWithIdx_at_some (f := f) (n := n) ha
  rw [h] at h2
  exact ⟨a, ha, Option.some.inj h2⟩

theorem map_at_some_inv {α β : Type} {f : α → β} {l : List α} {i : ℕ} {b : β}
    (h : (l.map f)[i]? = some b) : ∃ a, l[i]? = some a ∧ b = f a := by
  rw [List.getElem?_map] at h
  obtain ⟨a, ha, hb⟩ := Option.map_eq_some'.1 h
  exact ⟨a, ha, hb.symm⟩

theorem bmLoop_eq_of_valid (fract : ℚ) :
    ∀ {img : Img}, (∀ ch ∈ img, validVals ch ≠ []) →
    bmLoop fract img
      = (img.map (borderMaskChan fract), Res.ok (img.map (borderMaskChan fract)))
  | [], _ => rfl
  | ch :: rest, hv => by
    have hch : validVals ch ≠ [] := hv ch (List.mem_cons_self ch rest)
    have hrest := bmLoop_eq_of_valid fract
      (fun c hc => hv c (List.mem_cons_of_mem ch hc))
    unfold bmLoop
    cases hmin : minL (validVals ch) with
    | none => exact absurd (minL_eq_none.1 hmin) hch
    | some m =>
      rw [hrest]
      rfl

theorem msLoop_eq {erode : List (List Bool) → List (List Bool)} :
    ∀ (img : Img),
    msLoop erode img = (img.map (shrinkChan erode), img.map (shrinkChan erode))
  | [] => rfl
  | ch :: rest => by
    unfold msLoop
    rw [msLoop_eq rest]
    rfl

/-- C9 (confirmed): BorderMasker and MaskShrinker mutate the caller tensor in
place.  For BorderMasker (on inputs where every channel has a valid pixel, so
the per-channel min does not raise): after the call the input tensor equals
the returned tensor, and every pixel of the input tensor outside the
channel centered box is exactly 0.  For MaskShrinker (for any erosion
backend): after the call the input tensor equals the returned tensor, and
every input pixel whose eroded validity-mask entry is 0 is exactly 0. -/
theorem borderMasker_maskShrinker_mutate_input (fract : ℚ)
    (erode : List (List Bool) → List (List Bool)) (img : Img)
    (hv : ∀ ch ∈ img, validVals ch ≠ []) :
    ((bmLoop fract img).2 = Res.ok (bmLoop fract img).1
      ∧ ∀ i r c pp, pxAt (bmLoop fract img).1 i r c = some pp →
        inBoxB fract (img.getD i []).length ((img.getD i []).headD []).length r c
          = false →
        pp = Px.fin 0)
    ∧ ((msLoop erode img).1 = (msLoop erode img).2
      ∧ ∀ i r c pp, pxAt (msLoop erode img).1 i r c = some pp →
        ((erode ((img.getD i []).map (fun row => row.map Px.isValid)))[r]?.bind
          (fun mrow => mrow[c]?)) = some false →
        pp = Px.fin 0) := by
  constructor
  · rw [bmLoop_eq_of_valid fract hv]
    refine ⟨rfl, ?_⟩
    intro i r c pp hpp hbox
    obtain ⟨ch2, row2, hch2, hrow2, hc2⟩ := pxAt_eq_some.1 hpp
    obtain ⟨ch, hch, hcheq⟩ := map_at_some_inv hch2
    subst hcheq
    unfold borderMaskChan at hrow2
    obtain ⟨row, hrow, hroweq⟩ := mapWithIdx_at_some_inv hrow2
    subst hroweq
    obtain ⟨p0, hp0, hpeq⟩ := mapWithIdx_at_some_inv hc2
    rw [getD_of_at_some hch] at hbox
    rw [Nat.zero_add, Nat.zero_add] at hpeq
    rw [hpeq, hbox]
    simp
  · rw [msLoop_eq img]
    refine ⟨rfl, ?_⟩
    intro i r c pp hpp hmask
    obtain ⟨ch2, row2, hch2, hrow2, hc2⟩ := pxAt_eq_some.1 hpp
    obtain ⟨ch, hch, hcheq⟩ := map_at_some_inv hch2
    subst hcheq
    unfold shrinkChan at hrow2
    obtain ⟨rowx, mrow, hrowx, hmrow, hroweq⟩ :=
      List.getElem?_zipWith_eq_some.1 hrow2
    subst hroweq
    obtain ⟨p0, m, hp0, hm, hpeq⟩ := List.getElem?_zipWith_eq_some.1 hc2
    rw [getD_of_at_some hch] at hmask
    rw [hmrow, Option.some_bind] at hmask
    rw [hm] at hmask
    have hmf : m = false := Option.some.inj hmask
    rw [hmf] at hpeq
    simp only [Bool.false_eq_true, if_false] at hpeq
    exact hpeq.symm

/-- Witness for C9 on a 1 x 1 single-channel tensor with the default border
fraction and the identity erosion. -/
theorem borderMasker_maskShrinker_mutate_input_witness :
    (∀ ch ∈ ([[[Px.fin 1]]] : Img), validVals ch ≠ [])
    ∧ (((bmLoop (7 / 10) [[[Px.fin 1]]]).2
        = Res.ok (bmLoop (7 / 10) [[[Px.fin 1]]]).1
      ∧ ∀ i r c pp, pxAt (bmLoop (7 / 10) [[[Px.fin 1]]]).1 i r c = some pp →
        inBoxB (7 / 10) (([[[Px.fin 1]]] : Img).getD i []).length
          ((([[[Px.fin 1]]] : Img).getD i []).headD []).length r c = false →
        pp = Px.fin 0)
    ∧ (((msLoop (fun m => m) [[[Px.fin 1]]]).1
        = (msLoop (fun m => m) [[[Px.fin 1]]]).2)
      ∧ ∀ i r c pp, pxAt (msLoop (fun m => m) [[[Px.fin 1]]]).1 i r c = some pp →
        (((fun m => m) ((([[[Px.fin 1]]] : Img).getD i []).map
          (fun row => row.map Px.isValid)))[r]?.bind (fun mrow => mrow[c]?))
          = some false →
        pp = Px.fin 0)) :=
  ⟨by decide,
   borderMasker_maskShrinker_mutate_input (7 / 10) (fun m => m) [[[Px.fin 1]]]
     (by decide)⟩
